import Mathlib

/-!
Verification development for the `nojima-monitor` repository (`main.py`).

The Python program is shallowly embedded below:
* HTML documents (as produced by BeautifulSoup's `html.parser`) are modelled
  as a tree of element/text nodes (`Node` / `NodeList`).
* `extract_price`, `extract_product_name`, `check_price`,
  `send_discord_notification`, `load_previous_prices`, `save_prices` and the
  per-URL body of `monitor` are translated into executable Lean functions.
* The regular expressions of the source are modelled by dedicated character
  list scanners whose behaviour coincides with the Python `re` semantics on
  the patterns that occur in the source.
-/

namespace Nojima

/-! ## HTML document model

BeautifulSoup parses HTML into a tree of tags and text pieces.  We model a
parsed document directly: an element node carries its (lower-cased) tag name,
its attribute list (attribute name, raw attribute value) and its children; a
text node carries its string.  A document is the list of root nodes.
-/

mutual

inductive Node where
  | elem (tag : String) (attrs : List (String × String)) (children : NodeList)
  | text (s : String)

inductive NodeList where
  | nil
  | cons (head : Node) (tail : NodeList)

end

/-- Convenience conversion from a Lean list of nodes. -/
def NodeList.ofList : List Node → NodeList
  | [] => .nil
  | n :: ns => .cons n (NodeList.ofList ns)

mutual

/-- `element.get_text()`: concatenation of all text pieces of the subtree,
in document order, with no separator. -/
def Node.getText : Node → String
  | .text s => s
  | .elem _ _ cs => NodeList.getText cs

def NodeList.getText : NodeList → String
  | .nil => ""
  | .cons n rest => n.getText ++ rest.getText

end

mutual

/-- All element nodes of a subtree in document (pre-)order, as used by
`soup.find_all`: an element comes before its descendants, descendants before
later siblings. -/
def Node.elemsOf : Node → List Node
  | .text _ => []
  | .elem t a cs => .elem t a cs :: NodeList.elemsOf cs

def NodeList.elemsOf : NodeList → List Node
  | .nil => []
  | .cons n rest => n.elemsOf ++ rest.elemsOf

end

/-- First value of the attribute with the given name (`html.parser` keeps the
first occurrence of a duplicated attribute, so first binding = the element's
attribute value). -/
def attrVal (attrs : List (String × String)) (name : String) : Option String :=
  (attrs.find? (fun p => p.1 == name)).map (fun p => p.2)

/-! ## Character-level helpers (Python `re` / `str` semantics) -/

/-- ASCII lower-casing, enough for the case-insensitive regexes of the source
whose patterns are pure ASCII. -/
def asciiLower (c : Char) : Char :=
  if 'A' ≤ c ∧ c ≤ 'Z' then Char.ofNat (c.toNat + 32) else c

/-- Substring test on character lists. -/
def containsSub (pat : List Char) : List Char → Bool
  | [] => pat.isEmpty
  | c :: rest => pat.isPrefixOf (c :: rest) || containsSub pat rest

/-- `re.search(pat, s, re.I)` for the pattern `.*pat.*`: case-insensitive
substring containment (ASCII case folding). -/
def containsCI (pat s : String) : Bool :=
  containsSub (pat.data.map asciiLower) (s.data.map asciiLower)

/-- The character class `[0-9,]` of the price regexes. -/
def isDigitComma (c : Char) : Bool := c.isDigit || c == ','

/-- Python regex `\s` on the whitespace characters that can occur here. -/
def pySpace (c : Char) : Bool :=
  c == ' ' || c == '\t' || c == '\n' || c == '\r' ||
  c == '\x0b' || c == '\x0c' || c == '\u00a0' || c == '\u3000'

/-- `str.strip()`: remove leading and trailing whitespace. -/
def pyStrip (l : List Char) : List Char :=
  ((l.dropWhile pySpace).reverse.dropWhile pySpace).reverse

/-- `'...'.replace(',', '')`. -/
def stripCommas (l : List Char) : List Char := l.filter (fun c => c != ',')

/-- Numeric value of a digit string. -/
def digitsToNat (l : List Char) : Nat :=
  l.foldl (fun n c => n * 10 + (c.toNat - '0'.toNat)) 0

/-- Python `int(s)` on the strings that reach it here (after stripping the
commas of a `[0-9,]` run only digits remain; the empty string raises
`ValueError`, modelled as `none`). -/
def parsePyInt (l : List Char) : Option Nat :=
  if l.isEmpty then none
  else if l.all Char.isDigit then some (digitsToNat l) else none

/-- Group 1 of `re.search(r'[¥￥]?\s*([0-9,]+)\s*円?', text)`: since the
yen sign, the whitespace and the trailing unit are all optional, the leftmost
match captures exactly the first maximal run of `[0-9,]` characters, and there
is no match iff the text has no such character. -/
def firstRun : List Char → Option (List Char)
  | [] => none
  | c :: rest =>
    if isDigitComma c then some (c :: rest.takeWhile isDigitComma)
    else firstRun rest

/-- One structural pass collecting every maximal `[0-9,]` run together with
the text that follows it. -/
def runsAux (cur : List Char) : List Char → List (List Char × List Char)
  | [] => if cur.isEmpty then [] else [(cur.reverse, [])]
  | c :: rest =>
    if isDigitComma c then runsAux (c :: cur) rest
    else
      (if cur.isEmpty then [] else [(cur.reverse, c :: rest)]) ++ runsAux [] rest

/-- `re.findall(r'[¥￥]?\s*([0-9,]{3,})\s*円', text)`.  Because `[0-9,]`,
`\s` and `円` are pairwise disjoint character sets, each match group is a
maximal `[0-9,]` run of length ≥ 3 that is followed, after optional
whitespace, by `円`; the matches are exactly those runs in text order. -/
def fallbackRuns (l : List Char) : List (List Char) :=
  ((runsAux [] l).filter
    (fun p => decide (3 ≤ p.1.length) &&
      ((p.2.dropWhile pySpace).head? == some '円'))).map (fun p => p.1)

/-! ## `extract_price` (main.py lines 35-64) -/

/-- An element matches `attrs={name: re.compile('.*sub.*', re.I)}`: it has an
attribute literally named `name` whose value contains `sub`
case-insensitively.  Note that BeautifulSoup aliases `class_` to the `class`
attribute only when `class_` is passed as a keyword argument; a key inside the
`attrs` dictionary is used verbatim as the attribute name. -/
def matchesAttrSub (name sub : String) : Node → Bool
  | .elem _ attrs _ =>
    match attrVal attrs name with
    | some v => containsCI sub v
    | none => false
  | .text _ => false

/-- An element matches `attrs={name: val}`: attribute `name` present with
value exactly `val`. -/
def matchesAttrExact (name val : String) : Node → Bool
  | .elem _ attrs _ =>
    match attrVal attrs name with
    | some v => v == val
    | none => false
  | .text _ => false

/-- The `price_patterns` list of the source:
`[{'class_': re.compile('.*price.*', re.I)}, {'class_': re.compile('.*value.*', re.I)}, {'itemprop': 'price'}]`. -/
def price_patterns : List (Node → Bool) :=
  [matchesAttrSub "class_" "price",
   matchesAttrSub "class_" "value",
   matchesAttrExact "itemprop" "price"]

/-- The body of the inner loop of the structured pass for one element: first
`[0-9,]` run of the element's text, comma-stripped, parsed, accepted iff in
`[100, 10000000]`.  A parse failure or an out-of-range value makes the loop
move on to the next element. -/
def elemCandidate (e : Node) : Option Nat :=
  match firstRun e.getText.data with
  | none => none
  | some run =>
    match parsePyInt (stripCommas run) with
    | none => none
    | some p => if 100 ≤ p ∧ p ≤ 10000000 then some p else none

/-- `for element in elements: ...` of the structured pass. -/
def scanElems : List Node → Option Nat
  | [] => none
  | e :: rest =>
    match elemCandidate e with
    | some p => some p
    | none => scanElems rest

/-- `for pattern in price_patterns: ...`. -/
def scanPatterns (doc : NodeList) : List (Node → Bool) → Option Nat
  | [] => none
  | pat :: rest =>
    match scanElems (doc.elemsOf.filter pat) with
    | some p => some p
    | none => scanPatterns doc rest

/-- `for price_str in prices: ...` of the fallback pass: parse failures and
out-of-range values are skipped, the first in-range value is returned. -/
def scanFallback : List (List Char) → Option Nat
  | [] => none
  | r :: rest =>
    match parsePyInt (stripCommas r) with
    | some p => if 100 ≤ p ∧ p ≤ 10000000 then some p else scanFallback rest
    | none => scanFallback rest

/-- `NojimaPriceMonitor.extract_price` (main.py lines 35-64). -/
def extract_price (doc : NodeList) : Option Nat :=
  match scanPatterns doc price_patterns with
  | some p => some p
  | none => scanFallback (fallbackRuns doc.getText.data)

/-! ## `extract_product_name` (main.py lines 66-77) -/

/-- `soup.find('h1')` / `soup.find('title')`: first element with the given
tag name in document order. -/
def findTag (doc : NodeList) (tag : String) : Option Node :=
  doc.elemsOf.find? (fun e =>
    match e with
    | .elem t _ _ => t == tag
    | .text _ => false)

/-- `soup.find('h2', class_=re.compile('.*product.*', re.I))`: here `class_`
is a keyword argument, so it does target the `class` attribute. -/
def findH2Product (doc : NodeList) : Option Node :=
  doc.elemsOf.find? (fun e =>
    match e with
    | .elem t attrs _ =>
      t == "h2" &&
        (match attrVal attrs "class" with
         | some v => containsCI "product" v
         | none => false)
    | .text _ => false)

/-- `c` is one of the pipe characters of `re.sub(r'[\|｜].*$', '', text)`. -/
def isPipe (c : Char) : Bool := c == '|' || c == '｜'

/-- `re.sub(r'[\|｜].*$', '', text)`.  `.` does not match a newline and `$`
matches only at the end of the string or just before a terminal newline, so
the single possible match runs from the first pipe of the final line to the
end (keeping a terminal newline); a pipe on an earlier line is untouched. -/
def stripPipeSub (l : List Char) : List Char :=
  let body := if l.getLast? == some '\n' then l.dropLast else l
  let keep : List Char := if l.getLast? == some '\n' then ['\n'] else []
  let revBody := body.reverse
  let revLast := revBody.takeWhile (fun c => c != '\n')
  let lastLine := revLast.reverse
  if lastLine.any isPipe then
    (revBody.dropWhile (fun c => c != '\n')).reverse ++
      lastLine.takeWhile (fun c => !(isPipe c)) ++ keep
  else l

/-- If `\s*-\s*ノジマ` matches a prefix of `l`, the remainder after `ノジマ`.
The classes `\s`, `-` and the literal are pairwise disjoint, so the greedy
parse is the only one. -/
def matchDashNojima (l : List Char) : Option (List Char) :=
  match l.dropWhile pySpace with
  | '-' :: l2 =>
    let l3 := l2.dropWhile pySpace
    if ['ノ', 'ジ', 'マ'].isPrefixOf l3 then some (l3.drop 3) else none
  | _ => none

/-- Does `.*$` match the whole of `r` (see `stripPipeSub` for the `$`
semantics)?  If so, the characters the substitution keeps (at most a terminal
newline). -/
def lineToEnd (r : List Char) : Option (List Char) :=
  if r.all (fun c => c != '\n') then some []
  else if r.getLast? == some '\n' && r.dropLast.all (fun c => c != '\n') then
    some ['\n']
  else none

/-- `re.sub(r'\s*-\s*ノジマ.*$', '', text, flags=re.I)` (the flag is inert on
this pattern): delete from the leftmost position where `\s*-\s*ノジマ` matches
and the rest of the text reaches `$` without an inner newline. -/
def stripNojimaSub : List Char → List Char
  | [] => []
  | c :: rest =>
    match matchDashNojima (c :: rest) with
    | some r =>
      match lineToEnd r with
      | some keep => keep
      | none => c :: stripNojimaSub rest
    | none => c :: stripNojimaSub rest

/-- Lines 71-74 of the source applied to one candidate element's text:
`strip`, pipe-suffix removal, `- ノジマ...` suffix removal, `strip`. -/
def cleanCandidate (t : String) : List Char :=
  pyStrip (stripNojimaSub (stripPipeSub (pyStrip t.data)))

/-- The `for element in patterns:` loop of `extract_product_name`: skip
absent finds, accept the first candidate whose cleaned text has more than 3
characters. -/
def namePass : List (Option Node) → String
  | [] => "商品名不明"
  | none :: rest => namePass rest
  | some e :: rest =>
    let t := cleanCandidate e.getText
    if 3 < t.length then String.mk t else namePass rest

/-- `NojimaPriceMonitor.extract_product_name` (main.py lines 66-77). -/
def extract_product_name (doc : NodeList) : String :=
  namePass [findTag doc "h1", findH2Product doc, findTag doc "title"]

/-! ## `check_price` (main.py lines 79-91) -/

/-- The dictionary `{'url': ..., 'price': ..., 'product_name': ...,
'timestamp': ...}` built by `check_price`; it is stored as-is in
`previous_prices`, so it is both the fresh observation and the persisted
history entry.  The price is an integer (JSON numbers in the store file are
integers as well). -/
structure Observation where
  url : String
  price : Int
  product_name : String
  timestamp : String
deriving DecidableEq, Repr

/-- Outcome of `requests.get(url, ...)` combined with `raise_for_status()`:
either the page's parsed HTML, or any transport error / timeout / non-2xx
status (all of which raise and are caught by the bare `except`). -/
inductive FetchResult where
  | ok (doc : NodeList)
  | err

/-- `NojimaPriceMonitor.check_price` (main.py lines 79-91): on a fetch
failure or an absent price the per-URL handler logs and returns `None`;
otherwise it returns the observation dictionary.  `ts` stands for
`datetime.now().isoformat()`. -/
def check_price (url : String) (ts : String) (f : FetchResult) : Option Observation :=
  match f with
  | .err => none
  | .ok doc =>
    match extract_price doc with
    | none => none
    | some p => some ⟨url, (p : Int), extract_product_name doc, ts⟩

/-! ## `send_discord_notification` (main.py lines 93-120) -/

/-- Outcome of `requests.post(webhook, json=embed)`: an HTTP response with a
status code, or a raised transport error (caught by the `except`). -/
inductive PostResult where
  | status (code : Nat)
  | transportError
deriving DecidableEq, Repr

/-- `NojimaPriceMonitor.send_discord_notification` (main.py lines 93-120):
with no configured webhook it logs and returns `False`; otherwise it returns
`True` exactly on an HTTP 204 response, and `False` (after logging) on any
other status code or on a transport error.  It never raises. -/
def send_discord_notification (webhook : String) (post : PostResult) : Bool :=
  if webhook = "" then false
  else
    match post with
    | .status code => code == 204
    | .transportError => false

/-! ## The history store and its JSON file (main.py lines 22-33) -/

/-- JSON values as produced by `json.load` / consumed by `json.dump` for the
store file (floats never occur in it). -/
inductive JValue where
  | null
  | bool (b : Bool)
  | int (n : Int)
  | str (s : String)
  | arr (xs : List JValue)
  | obj (fields : List (String × JValue))
deriving Inhabited

/-- The in-memory `self.previous_prices` dictionary: keys in insertion order,
each key at most once, values the stored observation dictionaries. -/
abbrev Store := List (String × Observation)

/-- `self.previous_prices[url]` lookup / `url in self.previous_prices`. -/
def lookupStore : Store → String → Option Observation
  | [], _ => none
  | p :: rest, u => if p.1 = u then some p.2 else lookupStore rest u

/-- `self.previous_prices[url] = current_data`: replace in place if the key
exists (Python dicts keep the key's position), append otherwise. -/
def insertStore : Store → String → Observation → Store
  | [], u, o => [(u, o)]
  | p :: rest, u, o =>
    if p.1 = u then (u, o) :: rest else p :: insertStore rest u o

/-- JSON encoding of one stored dictionary, fields in insertion order. -/
def obsToJson (o : Observation) : JValue :=
  .obj [("url", .str o.url), ("price", .int o.price),
        ("product_name", .str o.product_name), ("timestamp", .str o.timestamp)]

/-- `NojimaPriceMonitor.save_prices` (main.py lines 31-33): the file is
rewritten with the JSON serialization of the whole dictionary (`json.dump`
and `json.load` are mutually inverse on such values, so the file is modelled
by the JSON value it holds). -/
def save_prices (s : Store) : JValue :=
  .obj (s.map (fun p => (p.1, obsToJson p.2)))

/-- Typed reading of one stored dictionary, as the monitor accesses it. -/
def jsonToObs (v : JValue) : Option Observation :=
  match v with
  | .obj [("url", .str u), ("price", .int p),
          ("product_name", .str n), ("timestamp", .str t)] => some ⟨u, p, n, t⟩
  | _ => none

/-- Typed reading of the whole store file. -/
def jsonToStore (v : JValue) : Option Store :=
  match v with
  | .obj fields =>
    fields.mapM (fun p => (jsonToObs p.2).map (fun o => (p.1, o)))
  | _ => none

/-- What `load_previous_prices` finds on disk: no file at all, a file whose
read or parse raises, or a successfully parsed JSON value. -/
inductive StoreFile where
  | missing
  | unreadable
  | content (v : JValue)

/-- `NojimaPriceMonitor.load_previous_prices` (main.py lines 22-29): missing
file and any read/parse failure both give `{}`; otherwise the parsed value is
returned unchecked.  Total — the bare `except` swallows every error. -/
def load_previous_prices (f : StoreFile) : JValue :=
  match f with
  | .missing => .obj []
  | .unreadable => .obj []
  | .content v => v

/-! ## The per-URL body of `monitor` (main.py lines 148-172) -/

/-- The data of one `self.notify(message, is_price_drop)` call made by the
changed branch: the quantities interpolated into the message and the
classification flag.  `change_percent` is `(change / previous_price) * 100`
computed in exact rational arithmetic.  `delivered` records the outcome of
the webhook delivery attempt triggered by the call. -/
structure NotificationCall where
  url : String
  product_name : String
  previous_price : Int
  current_price : Int
  change : Int
  change_percent : ℚ
  is_price_drop : Bool
  delivered : Bool
deriving DecidableEq, Repr

/-- Observable state of one monitor run: the in-memory dictionary, the log of
notification calls and the log of file writes (each `save_prices()` call with
the store it serialized). -/
structure MonState where
  previous_prices : Store
  notifyCalls : List NotificationCall
  saves : List Store
deriving DecidableEq, Repr

/-- The body of `for url in self.urls:` (main.py lines 149-172) for one URL.
`result` is what `check_price` returned and `delivered` the outcome the
webhook delivery would have (it influences nothing else).  `None` results are
skipped; a known URL with an unchanged price only logs; a changed price
notifies once, replaces the entry and saves; an unknown URL stores the entry
and saves without notifying. -/
def monitorStep (st : MonState) (result : Option Observation) (delivered : Bool) :
    MonState :=
  match result with
  | none => st
  | some cur =>
    match lookupStore st.previous_prices cur.url with
    | some prev =>
      if cur.price ≠ prev.price then
        let change := cur.price - prev.price
        let store' := insertStore st.previous_prices cur.url cur
        { previous_prices := store',
          notifyCalls := st.notifyCalls ++
            [⟨cur.url, cur.product_name, prev.price, cur.price, change,
              (change : ℚ) / (prev.price : ℚ) * 100, change < 0, delivered⟩],
          saves := st.saves ++ [store'] }
      else st
    | none =>
      let store' := insertStore st.previous_prices cur.url cur
      { st with previous_prices := store', saves := st.saves ++ [store'] }

/-- One full cycle over the URL list: fold of `monitorStep` over the per-URL
`check_price` results paired with the delivery outcomes. -/
def monitorCycle (st : MonState) (results : List (Option Observation × Bool)) :
    MonState :=
  results.foldl (fun s r => monitorStep s r.1 r.2) st

/-! ## Spec-level descriptions of the price search, for comparison

Two rephrasings of `extract_price` as an ordered candidate list with a
first-accepted rule.  `candidateSearch` follows the (amended) spec sentence;
`extract_price_claimed` follows the claim exactly as written — patterns (a)
and (b) match *any* attribute whose value contains the substring, and the
fallback requires the yen unit to follow the digits *immediately*. -/

/-- Candidate texts of the structured pass, pattern-list order outer and
document order inner: for each matching element the first `[0-9,]` run of its
text (elements whose text has none contribute nothing). -/
def structuredCandidates (doc : NodeList) (pats : List (Node → Bool)) :
    List (List Char) :=
  (pats.map (fun pat =>
    (doc.elemsOf.filter pat).filterMap (fun e => firstRun e.getText.data))).flatten

/-- The spec's description of the whole search, with the patterns the code
actually uses: structured candidates first, then the yen-suffixed runs of the
flattened text; the first candidate that parses (commas stripped) into
`[100, 10000000]` wins, all others are skipped. -/
def extract_price_spec (doc : NodeList) : Option Nat :=
  scanFallback
    (structuredCandidates doc price_patterns ++ fallbackRuns doc.getText.data)

/-- Pattern (a)/(b) as the claim states them: some attribute *value* contains
the substring, whatever the attribute's name. -/
def hasAttrValueContaining (sub : String) : Node → Bool
  | .elem _ attrs _ => attrs.any (fun p => containsCI sub p.2)
  | .text _ => false

/-- The pattern list as the claim states it. -/
def claimed_patterns : List (Node → Bool) :=
  [hasAttrValueContaining "price",
   hasAttrValueContaining "value",
   matchesAttrExact "itemprop" "price"]

/-- The fallback as the claim states it: a 3+-character `[0-9,]` run
immediately followed by `円`, with no whitespace in between. -/
def fallbackRunsImmediate (l : List Char) : List (List Char) :=
  ((runsAux [] l).filter
    (fun p => decide (3 ≤ p.1.length) && (p.2.head? == some '円'))).map
    (fun p => p.1)

/-- `extract_price` exactly as claim C3 describes it. -/
def extract_price_claimed (doc : NodeList) : Option Nat :=
  scanFallback
    (structuredCandidates doc claimed_patterns ++
      fallbackRunsImmediate doc.getText.data)

/-! ## Reachable monitor states -/

/-- `o` is a dictionary that `check_price` can actually return: its price was
produced by `extract_price` on some page. -/
def FromCheckPrice (o : Observation) : Prop :=
  ∃ url ts f, check_price url ts f = some o

/-- States of one monitor process reachable by the program itself: the empty
initial store, any number of per-URL steps whose observations come from
`check_price`, and a restart that reloads the file written by `save_prices`
(a fresh start with a missing or corrupt file is the `start` state, by
`load_previous_prices`). -/
inductive Reachable : MonState → Prop where
  | start : Reachable ⟨[], [], []⟩
  | step (st : MonState) (r : Option Observation) (d : Bool) :
      Reachable st → (∀ o, r = some o → FromCheckPrice o) →
      Reachable (monitorStep st r d)
  | restart (st : MonState) (s' : Store) :
      Reachable st →
      jsonToStore
        (load_previous_prices (.content (save_prices st.previous_prices))) =
        some s' →
      Reachable ⟨s', [], []⟩

/-! ## Helper lemmas -/

theorem scanFallback_bounds (cs : List (List Char)) (p : Nat)
    (h : scanFallback cs = some p) : 100 ≤ p ∧ p ≤ 10000000 := by
  induction cs with
  | nil => simp [scanFallback] at h
  | cons c rest ih =>
    rw [scanFallback] at h
    split at h
    next q hq =>
      split at h
      next hr =>
        cases h
        exact hr
      next => exact ih h
    next => exact ih h

theorem elemCandidate_bounds (e : Node) (p : Nat)
    (h : elemCandidate e = some p) : 100 ≤ p ∧ p ≤ 10000000 := by
  rw [elemCandidate] at h
  split at h
  next => exact absurd h (by simp)
  next run hrun =>
    split at h
    next => exact absurd h (by simp)
    next q hq =>
      split at h
      next hr =>
        cases h
        exact hr
      next => exact absurd h (by simp)

theorem scanElems_bounds (es : List Node) (p : Nat)
    (h : scanElems es = some p) : 100 ≤ p ∧ p ≤ 10000000 := by
  induction es with
  | nil => simp [scanElems] at h
  | cons e rest ih =>
    rw [scanElems] at h
    cases hc : elemCandidate e with
    | none => rw [hc] at h; exact ih h
    | some q =>
      rw [hc] at h
      cases h
      exact elemCandidate_bounds e p hc

theorem scanPatterns_bounds (doc : NodeList) (pats : List (Node → Bool)) (p : Nat)
    (h : scanPatterns doc pats = some p) : 100 ≤ p ∧ p ≤ 10000000 := by
  induction pats with
  | nil => simp [scanPatterns] at h
  | cons pat rest ih =>
    rw [scanPatterns] at h
    cases hc : scanElems (doc.elemsOf.filter pat) with
    | none => rw [hc] at h; exact ih h
    | some q =>
      rw [hc] at h
      cases h
      exact scanElems_bounds _ p hc

theorem extract_price_bounds (doc : NodeList) (p : Nat)
    (h : extract_price doc = some p) : 100 ≤ p ∧ p ≤ 10000000 := by
  rw [extract_price] at h
  cases hs : scanPatterns doc price_patterns with
  | none => rw [hs] at h; exact scanFallback_bounds _ p h
  | some q =>
    rw [hs] at h
    cases h
    exact scanPatterns_bounds doc price_patterns p hs

theorem check_price_bounds (u ts : String) (f : FetchResult) (o : Observation)
    (h : check_price u ts f = some o) :
    100 ≤ o.price ∧ o.price ≤ 10000000 := by
  cases f with
  | err => exact absurd h (by simp [check_price])
  | ok doc =>
    rw [check_price] at h
    split at h
    next => exact absurd h (by simp)
    next p hp =>
      cases h
      have hb := extract_price_bounds doc p hp
      constructor
      · show (100 : ℤ) ≤ (p : ℤ)
        exact_mod_cast hb.1
      · show (p : ℤ) ≤ 10000000
        exact_mod_cast hb.2

theorem lookupStore_insert_self (s : Store) (u : String) (o : Observation) :
    lookupStore (insertStore s u o) u = some o := by
  induction s with
  | nil => simp [insertStore, lookupStore]
  | cons p rest ih =>
    by_cases h : p.1 = u
    · simp [insertStore, h, lookupStore]
    · simp [insertStore, h, lookupStore, ih]

theorem namePass_cases (ps : List (Option Node)) :
    namePass ps = "商品名不明" ∨ 3 < (namePass ps).length := by
  induction ps with
  | nil => left; rfl
  | cons cand rest ih =>
    cases cand with
    | none => rw [namePass]; exact ih
    | some e =>
      rw [namePass]
      by_cases hl : 3 < (cleanCandidate e.getText).length
      · right
        rw [if_pos hl]
        simpa using hl
      · rw [if_neg hl]
        exact ih

theorem jsonToObs_obsToJson (o : Observation) : jsonToObs (obsToJson o) = some o := by
  cases o
  rfl

theorem jsonToStore_save_prices (s : Store) : jsonToStore (save_prices s) = some s := by
  induction s with
  | nil => rfl
  | cons p rest ih =>
    have hrest : List.mapM (fun q => (jsonToObs q.2).map (fun o => (q.1, o)))
        (rest.map (fun q => (q.1, obsToJson q.2))) = some rest := ih
    simp only [save_prices, jsonToStore, List.map_cons, List.mapM_cons,
      jsonToObs_obsToJson, Option.map_some, Option.bind_eq_bind,
      Option.some_bind, hrest]
    rfl

theorem scanFallback_append_some (xs ys : List (List Char)) (p : Nat)
    (h : scanFallback xs = some p) : scanFallback (xs ++ ys) = some p := by
  induction xs with
  | nil => simp [scanFallback] at h
  | cons c rest ih =>
    rw [scanFallback] at h
    rw [List.cons_append, scanFallback]
    split at h
    next q hq =>
      split at h
      next hr => rw [if_pos hr]; exact h
      next hr => rw [if_neg hr]; exact ih h
    next hq => exact ih h

theorem scanFallback_append_none (xs ys : List (List Char))
    (h : scanFallback xs = none) : scanFallback (xs ++ ys) = scanFallback ys := by
  induction xs with
  | nil => rfl
  | cons c rest ih =>
    rw [scanFallback] at h
    rw [List.cons_append, scanFallback]
    split at h
    next q hq =>
      split at h
      next => exact absurd h (by simp)
      next hr => rw [if_neg hr]; exact ih h
    next hq => exact ih h

theorem scanElems_eq_candidates (es : List Node) :
    scanElems es =
      scanFallback (es.filterMap (fun e => firstRun e.getText.data)) := by
  induction es with
  | nil => rfl
  | cons e rest ih =>
    rw [scanElems, List.filterMap_cons]
    cases hr : firstRun e.getText.data with
    | none =>
      simp only [elemCandidate, hr]
      exact ih
    | some run =>
      simp only [elemCandidate, hr, scanFallback]
      cases hp : parsePyInt (stripCommas run) with
      | none => exact ih
      | some q =>
        by_cases hb : 100 ≤ q ∧ q ≤ 10000000
        · simp [hb]
        · simp only [if_neg hb]
          exact ih

theorem scanPatterns_eq_candidates (doc : NodeList) (pats : List (Node → Bool)) :
    scanPatterns doc pats = scanFallback (structuredCandidates doc pats) := by
  induction pats with
  | nil => rfl
  | cons pat rest ih =>
    have hcands : structuredCandidates doc (pat :: rest) =
        (doc.elemsOf.filter pat).filterMap (fun e => firstRun e.getText.data) ++
          structuredCandidates doc rest := by
      simp [structuredCandidates]
    rw [scanPatterns, hcands]
    cases hs : scanElems (doc.elemsOf.filter pat) with
    | some p =>
      rw [scanElems_eq_candidates] at hs
      rw [scanFallback_append_some _ _ p hs]
    | none =>
      rw [scanElems_eq_candidates] at hs
      rw [scanFallback_append_none _ _ hs, ih]

theorem keys_insertStore (s : Store) (u : String) (o : Observation) :
    (insertStore s u o).map Prod.fst =
      if u ∈ s.map Prod.fst then s.map Prod.fst
      else s.map Prod.fst ++ [u] := by
  induction s with
  | nil => simp [insertStore]
  | cons p rest ih =>
    by_cases hp : p.1 = u
    · simp [insertStore, hp]
    · by_cases hm : u ∈ rest.map Prod.fst
      · simp [insertStore, hp, ih, hm, Ne.symm hp]
      · simp [insertStore, hp, ih, hm, Ne.symm hp]

theorem mem_insertStore (s : Store) (u : String) (o : Observation)
    (q : String × Observation) (h : q ∈ insertStore s u o) :
    q = (u, o) ∨ q ∈ s := by
  induction s with
  | nil => simpa [insertStore] using h
  | cons p rest ih =>
    by_cases hp : p.1 = u
    · rw [insertStore, if_pos hp] at h
      rcases List.mem_cons.mp h with h' | h'
      · left; exact h'
      · right; exact List.mem_cons_of_mem p h'
    · rw [insertStore, if_neg hp] at h
      rcases List.mem_cons.mp h with h' | h'
      · right; rw [h']; exact List.mem_cons_self p rest
      · rcases ih h' with h'' | h''
        · left; exact h''
        · right; exact List.mem_cons_of_mem p h''

theorem storeInv_insert (s : Store) (u : String) (o : Observation)
    (hnd : (s.map Prod.fst).Nodup)
    (hall : ∀ p ∈ s, 100 ≤ p.2.price ∧ p.2.price ≤ 10000000)
    (ho : 100 ≤ o.price ∧ o.price ≤ 10000000) :
    ((insertStore s u o).map Prod.fst).Nodup ∧
      ∀ p ∈ insertStore s u o, 100 ≤ p.2.price ∧ p.2.price ≤ 10000000 := by
  constructor
  · rw [keys_insertStore]
    by_cases hm : u ∈ s.map Prod.fst
    · simpa [hm] using hnd
    · simp [hm, hnd, List.nodup_append]
  · intro p hp
    rcases mem_insertStore s u o p hp with h | h
    · rw [h]
      exact ho
    · exact hall p h

theorem monitorStep_store (st : MonState) (r : Option Observation) (d : Bool) :
    (monitorStep st r d).previous_prices = st.previous_prices ∨
      ∃ o, r = some o ∧ (monitorStep st r d).previous_prices =
        insertStore st.previous_prices o.url o := by
  cases r with
  | none => left; rfl
  | some cur =>
    rw [monitorStep]
    cases hlk : lookupStore st.previous_prices cur.url with
    | none => right; exact ⟨cur, rfl, rfl⟩
    | some prev =>
      by_cases hne : cur.price ≠ prev.price
      · right
        refine ⟨cur, rfl, ?_⟩
        simp [hlk, hne]
      · left
        simp [hlk, hne]

/-! ## Claim theorems -/

/-- Claim C5: whenever `extract_price` returns a value, that value lies in
the closed range `[100, 10000000]`; candidates that parse outside the range
are skipped (the scan moves to the next candidate) and are never returned. -/
theorem extract_price_in_range (doc : NodeList) (p : Nat)
    (h : extract_price doc = some p) : 100 ≤ p ∧ p ≤ 10000000 :=
  extract_price_bounds doc p h

/-- Witness for C5: a concrete page on which `extract_price` returns a value,
and that value is in range. -/
theorem extract_price_in_range_witness :
    extract_price (NodeList.ofList
      [Node.elem "span" [("itemprop", "price")]
        (NodeList.ofList [Node.text "¥15,800円"])]) = some 15800 ∧
    (100 ≤ 15800 ∧ 15800 ≤ 10000000) :=
  ⟨rfl,
   extract_price_in_range
     (NodeList.ofList
       [Node.elem "span" [("itemprop", "price")]
         (NodeList.ofList [Node.text "¥15,800円"])]) 15800 rfl⟩

/-- Claim C7: `extract_product_name` never returns the empty string: it
returns either a candidate whose cleaned text has more than 3 characters (the
first of first-level heading, product-classed second-level heading, document
title that qualifies) or the sentinel unknown-name string. -/
theorem extract_product_name_nonempty (doc : NodeList) :
    extract_product_name doc ≠ "" ∧
    (extract_product_name doc = "商品名不明" ∨
      3 < (extract_product_name doc).length) := by
  have h := namePass_cases [findTag doc "h1", findH2Product doc, findTag doc "title"]
  rw [extract_product_name]
  refine ⟨?_, h⟩
  rcases h with h | h
  · rw [h]
    decide
  · intro hempty
    rw [hempty] at h
    simp at h

/-- Claim C2 counterexample: with a configured webhook, an HTTP 200 response
is a 2xx response and therefore, by the claim, not a delivery failure — yet
`send_discord_notification` reports failure, because the code tests for
status 204 exactly. -/
theorem discord_200_reports_failure :
    send_discord_notification "https://discord.example/webhook"
      (.status 200) = false := rfl

/-- Claim C2 (amended): with a configured webhook, the notifier reports
success exactly when the webhook POST returns HTTP status 204; every other
status code and any transport error is reported as failure, without
raising. -/
theorem discord_success_iff_204 (w : String) (post : PostResult) (hw : w ≠ "") :
    send_discord_notification w post = true ↔ post = .status 204 := by
  cases post with
  | status code => simp [send_discord_notification, hw]
  | transportError => simp [send_discord_notification, hw]

/-- Witness for the amended C2: a configured webhook and a 204 response give
success. -/
theorem discord_success_iff_204_witness :
    send_discord_notification "https://discord.example/webhook"
      (.status 204) = true :=
  (discord_success_iff_204 "https://discord.example/webhook" (.status 204)
    (by decide)).mpr rfl

/-- Claim C6: a fresh observation whose price equals the stored one leaves
the whole monitor state untouched: same in-memory store, no notification
call, no file write. -/
theorem monitor_unchanged_untouched (st : MonState) (cur prev : Observation)
    (d : Bool) (hprev : lookupStore st.previous_prices cur.url = some prev)
    (heq : cur.price = prev.price) :
    monitorStep st (some cur) d = st := by
  simp [monitorStep, hprev, heq]

/-- Witness for C6: stored price 1000, fresh observation 1000 — the state is
returned unchanged. -/
theorem monitor_unchanged_untouched_witness :
    monitorStep ⟨[("X", ⟨"X", 1000, "TV", "t0"⟩)], [], []⟩
      (some ⟨"X", 1000, "TV", "t1"⟩) true =
      ⟨[("X", ⟨"X", 1000, "TV", "t0"⟩)], [], []⟩ :=
  monitor_unchanged_untouched ⟨[("X", ⟨"X", 1000, "TV", "t0"⟩)], [], []⟩
    ⟨"X", 1000, "TV", "t1"⟩ ⟨"X", 1000, "TV", "t0"⟩ true (by decide) rfl

/-- Claim C1: on a price change the step makes exactly one notification call
carrying `change = new - old`, `change_percent = change / old * 100` and
`is_price_drop = (change < 0)`, replaces the stored entry for the url by the
new observation (so its stored price becomes the new one) and appends exactly
one file write of the updated store — all of this for either value of the
delivery outcome `d`.  (`old ≠ 0` holds for every entry the program ever
stores; with `old = 0` the Python division would raise instead.) -/
theorem monitor_changed_notifies_and_updates (st : MonState)
    (cur prev : Observation) (d : Bool)
    (hprev : lookupStore st.previous_prices cur.url = some prev)
    (hne : cur.price ≠ prev.price) (_hnz : prev.price ≠ 0) :
    monitorStep st (some cur) d =
      { previous_prices := insertStore st.previous_prices cur.url cur,
        notifyCalls := st.notifyCalls ++
          [⟨cur.url, cur.product_name, prev.price, cur.price,
            cur.price - prev.price,
            ((cur.price - prev.price : ℤ) : ℚ) / ((prev.price : ℤ) : ℚ) * 100,
            cur.price - prev.price < 0, d⟩],
        saves := st.saves ++ [insertStore st.previous_prices cur.url cur] } ∧
    lookupStore (insertStore st.previous_prices cur.url cur) cur.url =
      some cur := by
  constructor
  · simp [monitorStep, hprev, hne]
  · exact lookupStore_insert_self st.previous_prices cur.url cur

/-- Witness for C1: stored price 1000, observation 800 — one notification
with `is_price_drop = true`, `change = -200`, `change_percent = -20`, and the
store entry and file both updated to price 800. -/
theorem monitor_changed_witness :
    monitorStep ⟨[("X", ⟨"X", 1000, "TV", "t0"⟩)], [], []⟩
      (some ⟨"X", 800, "TV", "t1"⟩) true =
      ⟨[("X", ⟨"X", 800, "TV", "t1"⟩)],
       [⟨"X", "TV", 1000, 800, -200, -20, true, true⟩],
       [[("X", ⟨"X", 800, "TV", "t1"⟩)]]⟩ := by
  have h := monitor_changed_notifies_and_updates
    ⟨[("X", ⟨"X", 1000, "TV", "t0"⟩)], [], []⟩ ⟨"X", 800, "TV", "t1"⟩
    ⟨"X", 1000, "TV", "t0"⟩ true (by decide) (by decide) (by decide)
  rw [h.1]
  simp [insertStore, decide_eq_true_eq]
  norm_num

/-- Claim C8: `check_price` turns a fetch failure into `None` and returns
`None` exactly when extraction is absent; a `None` result leaves the state
untouched, and a cycle containing a failed URL behaves on the remaining URLs
exactly as if they were processed after the successful prefix — the failure
is confined to its own URL. -/
theorem cycle_continues_after_failure (st : MonState)
    (xs ys : List (Option Observation × Bool)) (d : Bool) (url ts : String)
    (doc : NodeList) :
    check_price url ts .err = none ∧
    (check_price url ts (.ok doc) = none ↔ extract_price doc = none) ∧
    monitorStep st none d = st ∧
    monitorCycle st (xs ++ (none, d) :: ys) =
      monitorCycle (monitorCycle st xs) ys := by
  refine ⟨rfl, ?_, rfl, ?_⟩
  · rw [check_price]
    cases he : extract_price doc <;> simp
  · rw [monitorCycle, monitorCycle, monitorCycle, List.foldl_append,
      List.foldl_cons]
    rfl

/-- Claim C10: `load_previous_prices` is total (it returns in every case) and
maps both a missing history file and an unreadable/unparsable one to the
empty mapping, under which every url is first-seen again (its lookup is
absent). -/
theorem load_previous_prices_resets :
    load_previous_prices .missing = .obj [] ∧
    load_previous_prices .unreadable = .obj [] ∧
    jsonToStore (.obj []) = some [] ∧
    ∀ u : String, lookupStore [] u = none :=
  ⟨rfl, rfl, rfl, fun _ => rfl⟩

/-- Claim C3 counterexample.  First input: an element whose `class` attribute
value is exactly `"price"` and whose text is an in-range number.  The claim's
pattern (a) ("any attribute value containing the substring price") accepts it
(`extract_price_claimed` returns the number), but the code searches for an
attribute literally named `class_` — the `class_` ↦ `class` aliasing of
BeautifulSoup applies to keyword arguments only, not to keys of the `attrs`
dictionary — so `extract_price` returns none.  Second input: flattened text
`"800 円"`; the claim requires the yen unit to follow the digits immediately
(`extract_price_claimed` returns none), but the code's fallback regex allows
whitespace before `円` and returns 800. -/
theorem extract_price_claim_counterexample :
    extract_price (NodeList.ofList
      [Node.elem "span" [("class", "price")]
        (NodeList.ofList [Node.text "500"])]) = none ∧
    extract_price_claimed (NodeList.ofList
      [Node.elem "span" [("class", "price")]
        (NodeList.ofList [Node.text "500"])]) = some 500 ∧
    extract_price (NodeList.ofList [Node.text "800 円"]) = some 800 ∧
    extract_price_claimed (NodeList.ofList [Node.text "800 円"]) = none :=
  ⟨rfl, rfl, rfl, rfl⟩

/-- Claim C3 (amended): `extract_price` searches candidates in this order —
elements matched by (a) an attribute named `class_` whose value contains
"price" case-insensitively, (b) an attribute named `class_` whose value
contains "value" case-insensitively, (c) an attribute named `itemprop` with
value exactly "price", pattern-list order outer and document order inner,
each matched element contributing the first digits-and-commas run of its
text; then the yen-suffixed (whitespace allowed before the unit) 3+-character
runs of the flattened document text; it returns the first candidate that
parses into `[100, 10000000]` and absent when no candidate is accepted. -/
theorem extract_price_eq_ordered_candidates (doc : NodeList) :
    extract_price doc = extract_price_spec doc := by
  rw [extract_price, extract_price_spec]
  cases hs : scanPatterns doc price_patterns with
  | some p =>
    rw [scanPatterns_eq_candidates] at hs
    rw [scanFallback_append_some _ _ p hs]
  | none =>
    rw [scanPatterns_eq_candidates] at hs
    rw [scanFallback_append_none _ _ hs]

/-- Claim C9: serializing any store with `save_prices` and reading the file
back with `load_previous_prices` yields the identical url → entry mapping. -/
theorem store_save_load_roundtrip (s : Store) :
    jsonToStore (load_previous_prices (.content (save_prices s))) = some s :=
  jsonToStore_save_prices s

/-- Claim C4: in every reachable monitor state — the fresh store, after any
sequence of first-seen insertions and changed replacements driven by
`check_price` results, and after a restart that reloads the saved file — the
store holds at most one entry per url (its key list has no duplicates) and
every stored price lies in `[100, 10000000]`. -/
theorem reachable_store_invariant (st : MonState) (h : Reachable st) :
    ((st.previous_prices.map Prod.fst).Nodup) ∧
      ∀ p ∈ st.previous_prices, 100 ≤ p.2.price ∧ p.2.price ≤ 10000000 := by
  induction h with
  | start => simp
  | step st r d hst hr ih =>
    rcases monitorStep_store st r d with hkeep | ⟨o, hro, hins⟩
    · rw [hkeep]
      exact ih
    · rw [hins]
      have ho : 100 ≤ o.price ∧ o.price ≤ 10000000 := by
        obtain ⟨u, ts, f, hc⟩ := hr o hro
        exact check_price_bounds u ts f o hc
      exact storeInv_insert _ _ _ ih.1 ih.2 ho
  | restart st s' hst hload ih =>
    rw [load_previous_prices, jsonToStore_save_prices] at hload
    cases hload
    exact ih

/-- Witness for C4: the state reached from the fresh store by one first-seen
step whose observation is produced by `check_price` on a concrete page
satisfies the invariant. -/
theorem reachable_store_invariant_witness :
    (((monitorStep ⟨[], [], []⟩ (some ⟨"X", 800, "商品名不明", "t"⟩)
        true).previous_prices.map Prod.fst).Nodup) ∧
      ∀ p ∈ (monitorStep ⟨[], [], []⟩ (some ⟨"X", 800, "商品名不明", "t"⟩)
        true).previous_prices, 100 ≤ p.2.price ∧ p.2.price ≤ 10000000 :=
  reachable_store_invariant _
    (Reachable.step ⟨[], [], []⟩ (some ⟨"X", 800, "商品名不明", "t"⟩) true
      Reachable.start
      (fun o ho => by
        cases ho
        exact ⟨"X", "t",
          .ok (NodeList.ofList
            [Node.elem "span" [("itemprop", "price")]
              (NodeList.ofList [Node.text "800円"])]), rfl⟩))

end Nojima
